import Mathlib

/-!
Verification of the chromium-policy-vulnfeed updater (`src/main.go`).

The Go program keeps a date-keyed cache of branch tip commits and builds an
OSV-style advisory from the entry that is `freshnessDays` old.  We embed the
pure core of the program:

* the cache is a finite association list from a day number (an integer: the
  injective image of the `YYYY-MM-DD` date string, one unit per calendar day)
  to the list of commit identifiers recorded for that day;
* `getCacheEntry` is the date-lookback resolver (`getCacheEntry` in Go);
* `updateCache` is the cache updater; the remote host is a response function
  `listCommits owner repo branch`, each commit carrying an optional SHA
  (`nil` pointer = `none`), and the run outcome distinguishes an ordinary
  error return from a Go runtime panic (`commits[0]` on an empty slice or
  dereferencing a nil SHA pointer);
* the order in which Go's `for key := range hashes` enumerates the keys of a
  map is unspecified, so `updateCache` takes the runtime's enumeration as an
  explicit parameter `iter`, constrained by `ValidIter` to enumerate each key
  exactly once;
* `updateAdvisory` and `createAffectedItem` assemble the advisory fields.
-/

/-- The persistent cache: association list from day number to the commit
identifiers recorded on that day (Go `map[string][]string`, keys being
formatted dates). -/
abbrev Cache := List (Int × List String)

/-- Go map read `cache[k]` with its `ok` flag: `some` when the key is bound. -/
def lookupEntry (cache : Cache) (k : Int) : Option (List String) :=
  match cache with
  | [] => none
  | (k', v) :: rest => if k' = k then some v else lookupEntry rest k

/-- Removes any binding of key `k` (helper for the map-assignment model). -/
def eraseEntry (cache : Cache) (k : Int) : Cache :=
  cache.filter (fun p => p.1 != k)

/-- Go map assignment `cache[k] = v`: replaces any existing binding of `k`. -/
def insertEntry (k : Int) (v : List String) (cache : Cache) : Cache :=
  (k, v) :: eraseEntry cache k

/-- The two error values `getCacheEntry` can produce: the negative-days check
and the missing-today-entry precondition check. -/
inductive CacheError
  | invalidArgument
  | cachePrecondition
  deriving DecidableEq

deriving instance DecidableEq for Except

/-- The fallback loop of `getCacheEntry`: `for i := d - 1; i >= 0; i--`,
probing `cache[format(now.AddDate(0, 0, -i))]`.  `scanEntries cache today n`
probes day `today - n` first, then `today - (n-1)`, ..., down to `today`. -/
def scanEntries (cache : Cache) (today : Int) : Nat → Option (List String)
  | 0 => lookupEntry cache today
  | Nat.succ i =>
    match lookupEntry cache (today - ((i : Int) + 1)) with
    | some hashes => some hashes
    | none => scanEntries cache today i

/-- `getCacheEntry(cache, d)` from `src/main.go`: reject negative `d`, require
today's entry, return the exact entry for `today - d` when bound, otherwise
scan `today-(d-1), ..., today` and fall back to today's entry.  The ambient
current date (`today` / `time.Now()` in Go) is threaded explicitly. -/
def getCacheEntry (today : Int) (cache : Cache) (d : Int) :
    Except CacheError (List String) :=
  if d < 0 then .error .invalidArgument
  else
    match lookupEntry cache today with
    | none => .error .cachePrecondition
    | some todayHashes =>
      match lookupEntry cache (today - d) with
      | some hashes => .ok hashes
      | none =>
        if 0 < d then
          match scanEntries cache today (d.toNat - 1) with
          | some hashes => .ok hashes
          | none => .ok todayHashes
        else .ok todayHashes

/-- Outcome of running `updateCache`: a normal return of the updated cache, an
ordinary Go error return (`return nil, err`), or a runtime panic. -/
inductive FetchOutcome (α : Type)
  | ok (val : α)
  | fetchError
  | panicked
  deriving DecidableEq

/-- Splits a character list on `'/'`, keeping empty segments — the semantics
of Go's `strings.Split(s, "/")` on the string's characters. -/
def splitSlash (cs : List Char) : List (List Char) :=
  match cs with
  | [] => [[]]
  | c :: rest =>
    let r := splitSlash rest
    if c = '/' then [] :: r
    else
      match r with
      | [] => [[c]]
      | seg :: segs => (c :: seg) :: segs

/-- `strings.Split(repoURL, "/")` followed by taking the last two segments as
`(owner, repoName)`; `none` when fewer than two segments exist (where the Go
index expression `s[len(s)-2]` would panic). -/
def splitRepo (repoURL : String) : Option (String × String) :=
  match ((splitSlash repoURL.toList).map (fun cs => String.mk cs)).reverse with
  | repoName :: owner :: _ => some (owner, repoName)
  | _ => none

/-- The per-branch fetch loop of `updateCache`: for each branch, obtain its
commit list from the remote and take `*commits[0].SHA`.  A failed call aborts
with the error return; a successful call with an empty commit list or a nil SHA
pointer panics. -/
def fetchTips (fetch : String → Except Unit (List (Option String))) :
    List String → FetchOutcome (List String)
  | [] => .ok []
  | b :: bs =>
    match fetch b with
    | .error _ => .fetchError
    | .ok [] => .panicked
    | .ok (none :: _) => .panicked
    | .ok (some sha :: _) =>
      match fetchTips fetch bs with
      | .ok rest => .ok (sha :: rest)
      | .fetchError => .fetchError
      | .panicked => .panicked

/-- Insertion into the key list of the Go set `hashes : map[string]bool`:
a repeated SHA leaves the key set unchanged. -/
def insertKey (keys : List String) (s : String) : List String :=
  if s ∈ keys then keys else keys ++ [s]

/-- The key set of the Go map `hashes` after all branches were processed,
represented in first-insertion order. -/
def distinctKeys (shas : List String) : List String :=
  shas.foldl insertKey []

/-- A possible enumeration order of a Go map's keys: `for key := range m`
visits every key exactly once, in an order the runtime chooses freely, so a
valid enumeration is any permutation of the key list. -/
def ValidIter (iter : List String → List String) : Prop :=
  ∀ l : List String, l.Nodup → (iter l).Perm l

/-- `updateCache(repoURL, repos, branches, cache)` from `src/main.go`: split
the repository locator, fetch every branch's tip commit, deduplicate the SHAs
through the `hashes` map, and bind the enumerated key list under today's date.
`iter` is the runtime's map-key enumeration order and `listCommits` the remote
host's response function.  On a fetch error the Go function returns
`(nil, err)` before the cache write, so the error outcome carries no cache and
the caller's mapping is untouched. -/
def updateCache (iter : List String → List String) (repoURL : String)
    (listCommits : String → String → String → Except Unit (List (Option String)))
    (branches : List String) (today : Int) (cache : Cache) :
    FetchOutcome Cache :=
  match splitRepo repoURL with
  | none => .panicked
  | some (owner, repoName) =>
    match fetchTips (listCommits owner repoName) branches with
    | .fetchError => .fetchError
    | .panicked => .panicked
    | .ok shas => .ok (insertEntry today (iter (distinctKeys shas)) cache)

/-- OSV range event (`Event` in Go): at most one of the two markers is
non-empty; the zero value of the other field stands for the omitted field. -/
structure Event where
  fixed : String
  introduced : String
  deriving DecidableEq

/-- OSV range (`Range` in Go). -/
structure Range where
  type : String
  repo : String
  events : List Event
  deriving DecidableEq

/-- OSV affected item (`AffectedItem` in Go). -/
structure AffectedItem where
  ranges : List Range
  deriving DecidableEq

/-- The advisory document (`Advisory` in Go). -/
structure Advisory where
  schemaVersion : String
  id : String
  modified : String
  published : String
  summary : String
  details : String
  affected : List AffectedItem
  deriving DecidableEq

/-- The freshness policy (`Policy` in Go). -/
structure Policy where
  id : String
  repository : String
  freshnessDays : Int
  policyLink : String
  description : String
  branches : List String

/-- `createAffectedItem(policy, hashes)` from `src/main.go`: one GIT range
whose event list is the sentinel `{introduced: "0"}` followed by one
`{fixed: hash}` event per resolved commit identifier.  The Go function never
returns a non-nil error. -/
def createAffectedItem (policy : Policy) (hashes : List String) :
    Except CacheError AffectedItem :=
  let fixedEvents := hashes.map (fun hash => { fixed := hash, introduced := "" : Event })
  .ok { ranges := [{ type := "GIT", repo := policy.repository,
                     events := [{ fixed := "", introduced := "0" }] ++ fixedEvents }] }

/-- `updateAdvisory(advisory, policy, cache)` from `src/main.go`: resolve the
lookback cache entry, build the affected item, stamp `Published` only when it
is still empty, and overwrite the identifying fields and `Modified` with this
run's values.  `nowTs` is the run's RFC 3339 timestamp (`nowTimestamp`). -/
def updateAdvisory (today : Int) (nowTs : String) (advisory : Advisory)
    (policy : Policy) (cache : Cache) : Except CacheError Advisory :=
  match getCacheEntry today cache policy.freshnessDays with
  | .error e => .error e
  | .ok hashes =>
    match createAffectedItem policy hashes with
    | .error e => .error e
    | .ok affectedItem =>
      .ok { advisory with
            published := if advisory.published = "" then nowTs else advisory.published
            id := policy.id
            modified := nowTs
            summary := policy.policyLink
            details := policy.description
            affected := [affectedItem] }

/-- The remote responses of `MockRepositories.ListCommits` in
`src/main_test.go`. -/
def mockListCommits (_owner _repoName branch : String) :
    Except Unit (List (Option String)) :=
  if branch = "branch1" then .ok [some "mockSHA1"]
  else if branch = "branch2" then .ok [some "mockSHA2"]
  else if branch = "branch3" then .ok [some "mockSHA1"]
  else .ok [some "defaultSHA"]

/-- A remote where `branchEmpty` answers with an empty commit list,
`branchErr` fails, and every other branch answers normally. -/
def listCommitsMixed (_owner _repoName branch : String) :
    Except Unit (List (Option String)) :=
  if branch = "branchEmpty" then .ok []
  else if branch = "branchErr" then .error ()
  else .ok [some "defaultSHA"]

/-- A remote whose commit lists are empty for every branch. -/
def listCommitsEmpty (_owner _repoName _branch : String) :
    Except Unit (List (Option String)) :=
  .ok []

/-- A remote whose first commit carries a nil SHA pointer for every branch. -/
def listCommitsNilSHA (_owner _repoName _branch : String) :
    Except Unit (List (Option String)) :=
  .ok [none]

/-- Concrete policy used to exercise `updateAdvisory`. -/
def policyW : Policy :=
  { id := "policyID", repository := "owner/repo", freshnessDays := 0,
    policyLink := "L", description := "D", branches := [] }

/-- Concrete advisory whose `published` stamp is already set. -/
def advisoryP : Advisory :=
  { schemaVersion := "1.0", id := "x", modified := "old", published := "P",
    summary := "", details := "", affected := [] }

/-- The advisory `updateAdvisory` produces from `advisoryP`, `policyW` and the
cache `[(0, abbr)]` at day 0 with timestamp `"NOW"`. -/
def advisoryResultW : Advisory :=
  { schemaVersion := "1.0", id := "policyID", modified := "NOW",
    published := "P", summary := "L", details := "D",
    affected := [{ ranges := [{ type := "GIT",
                                repo := "owner/repo",
                                events := [{ fixed := "", introduced := "0" },
                                           { fixed := "s", introduced := "" }] }] }] }

/-- The fallback loop returns the entry bound at offset `i₀` whenever every
offset strictly between `i₀` and the loop's starting index `n` is unbound:
the loop probes offsets `n, n-1, ..., 0` in that order. -/
theorem scanEntries_first_found (cache : Cache) (today : Int) (v : List String) :
    ∀ n i₀ : Nat, i₀ ≤ n →
      lookupEntry cache (today - (i₀ : Int)) = some v →
      (∀ j : Nat, i₀ < j → j ≤ n → lookupEntry cache (today - (j : Int)) = none) →
      scanEntries cache today n = some v := by
  intro n
  induction n with
  | zero =>
    intro i₀ hle hv _
    have h0 : i₀ = 0 := Nat.le_zero.mp hle
    subst h0
    simpa [scanEntries] using hv
  | succ n ih =>
    intro i₀ hle hv hnone
    have hcast : ((n : Int) + 1) = ((n + 1 : Nat) : Int) := by push_cast; ring
    by_cases hcase : i₀ = n + 1
    · subst hcase
      simp only [scanEntries, hcast]
      rw [hv]
    · have hle' : i₀ ≤ n := by omega
      simp only [scanEntries, hcast]
      rw [hnone (n + 1) (by omega) (by omega)]
      exact ih i₀ hle' hv (fun j h1 h2 => hnone j h1 (by omega))

/-- C6: when today's entry exists, `d` is non-negative, and the cache has an
entry for the exact target date `today - d`, `getCacheEntry` returns exactly
that entry (exact-match priority; for `d = 0` this is today's own entry). -/
theorem getCacheEntry_exact_match (today : Int) (cache : Cache) (d : Nat)
    (t v : List String)
    (hT : lookupEntry cache today = some t)
    (hv : lookupEntry cache (today - (d : Int)) = some v) :
    getCacheEntry today cache (d : Int) = .ok v := by
  have hd : ¬ ((d : Int) < 0) := by omega
  simp only [getCacheEntry, hd, if_false, hT, hv]

/-- C6 witness: at day 5 with entries for days 5 and 3, `d = 2` resolves to
day 3's entry. -/
theorem getCacheEntry_exact_match_witness :
    getCacheEntry 5 [(5, ["t"]), (3, ["v"])] 2 = .ok ["v"] :=
  getCacheEntry_exact_match 5 [(5, ["t"]), (3, ["v"])] 2 ["t"] ["v"]
    (by decide) (by decide)

/-- C7: a negative `d` is rejected with the invalid-argument error for every
cache, before any cache inspection happens. -/
theorem getCacheEntry_negative_days (today : Int) (cache : Cache) (d : Int)
    (h : d < 0) :
    getCacheEntry today cache d = .error .invalidArgument := by
  simp only [getCacheEntry, h, if_true]

/-- C7 witness: `d = -5` fails with the invalid-argument error even when
today's entry exists. -/
theorem getCacheEntry_negative_days_witness :
    getCacheEntry 0 [(0, ["x"])] (-5) = .error .invalidArgument :=
  getCacheEntry_negative_days 0 [(0, ["x"])] (-5) (by decide)

/-- C2 (amended): for every non-negative `d`, a cache with no binding for
today fails with the cache-precondition error.  (For negative `d` the
negative-days check precedes the precondition check, see the
counterexample.) -/
theorem getCacheEntry_missing_today (today : Int) (cache : Cache) (d : Int)
    (h0 : 0 ≤ d) (hT : lookupEntry cache today = none) :
    getCacheEntry today cache d = .error .cachePrecondition := by
  have hd : ¬ (d < 0) := by omega
  simp only [getCacheEntry, hd, if_false, hT]

/-- C2 witness: a cache with yesterday's entry only fails the precondition
check for `d = 2`. -/
theorem getCacheEntry_missing_today_witness :
    getCacheEntry 7 [(1, ["a"])] 2 = .error .cachePrecondition :=
  getCacheEntry_missing_today 7 [(1, ["a"])] 2 (by decide) (by decide)

/-- C2 counterexample: on the empty cache (which lacks today's entry) with
`d = -1`, `getCacheEntry` returns the invalid-argument error, not the
cache-precondition error the claim requires for every integer `d`. -/
theorem getCacheEntry_missing_today_negative_cex :
    lookupEntry ([] : Cache) 0 = none ∧
    getCacheEntry 0 ([] : Cache) (-1) ≠ .error .cachePrecondition ∧
    getCacheEntry 0 ([] : Cache) (-1) = .error .invalidArgument := by
  decide

/-- C1: when today's entry exists, the exact target date `today - d` is
unbound, and offset `i₀ < d` is the first bound offset found while scanning
`d-1, d-2, ..., 0` (all offsets strictly between `i₀` and `d` are unbound),
`getCacheEntry` returns the entry at `today - i₀` — the bound date in
`(today - d, today]` closest to, but more recent than, the target. -/
theorem getCacheEntry_descending_fallback (today : Int) (cache : Cache)
    (d : Nat) (t v : List String) (i₀ : Nat)
    (hT : lookupEntry cache today = some t)
    (hMiss : lookupEntry cache (today - (d : Int)) = none)
    (hi : i₀ < d)
    (hv : lookupEntry cache (today - (i₀ : Int)) = some v)
    (hAbove : ∀ j : Nat, i₀ < j → j < d →
      lookupEntry cache (today - (j : Int)) = none) :
    getCacheEntry today cache (d : Int) = .ok v := by
  have hd0 : ¬ ((d : Int) < 0) := by omega
  have hdpos : (0 : Int) < (d : Int) := by omega
  have htn : ((d : Int)).toNat = d := by omega
  have hscan : scanEntries cache today (((d : Int)).toNat - 1) = some v := by
    rw [htn]
    exact scanEntries_first_found cache today v (d - 1) i₀ (by omega) hv
      (fun j h1 h2 => hAbove j h1 (by omega))
  simp only [getCacheEntry, hd0, if_false, hT, hMiss, hdpos, if_true, hscan]

/-- C1 witness: at day 10 with entries for days 10 and 8, `d = 3` misses the
target day 7 and the descending scan finds day 8's entry. -/
theorem getCacheEntry_descending_fallback_witness :
    getCacheEntry 10 [(10, ["t"]), (8, ["v"])] 3 = .ok ["v"] :=
  getCacheEntry_descending_fallback 10 [(10, ["t"]), (8, ["v"])] 3 ["t"] ["v"] 2
    (by decide) (by decide) (by decide) (by decide)
    (fun j h1 h2 => absurd h2 (by omega))

/-- Membership in the Go set after one insertion. -/
theorem mem_insertKey (acc : List String) (a s : String) :
    s ∈ insertKey acc a ↔ s ∈ acc ∨ s = a := by
  unfold insertKey
  by_cases h : a ∈ acc
  · rw [if_pos h]
    constructor
    · exact Or.inl
    · rintro (hs | rfl)
      · exact hs
      · exact h
  · rw [if_neg h]
    simp [List.mem_append]

/-- One insertion preserves distinctness of the key list. -/
theorem nodup_insertKey (acc : List String) (a : String) (h : acc.Nodup) :
    (insertKey acc a).Nodup := by
  unfold insertKey
  by_cases ha : a ∈ acc
  · rwa [if_pos ha]
  · rw [if_neg ha]
    simp only [List.nodup_append, List.nodup_cons, List.not_mem_nil,
      not_false_iff, List.nodup_nil, and_true, true_and]
    refine ⟨h, ?_⟩
    intro x hx
    simp only [List.mem_singleton]
    intro hxa
    exact ha (hxa ▸ hx)

/-- Membership in the accumulated key set of the Go `hashes` map. -/
theorem mem_foldl_insertKey (l : List String) :
    ∀ (acc : List String) (s : String),
      s ∈ l.foldl insertKey acc ↔ s ∈ acc ∨ s ∈ l := by
  induction l with
  | nil => intro acc s; simp
  | cons a l ih =>
    intro acc s
    rw [List.foldl_cons, ih, mem_insertKey]
    simp only [List.mem_cons]
    tauto

/-- The accumulated key set of the Go `hashes` map stays distinct. -/
theorem nodup_foldl_insertKey (l : List String) :
    ∀ acc : List String, acc.Nodup → (l.foldl insertKey acc).Nodup := by
  induction l with
  | nil => intro acc h; simpa using h
  | cons a l ih => intro acc h; exact ih _ (nodup_insertKey acc a h)

/-- The key set of the Go `hashes` map holds exactly the fetched SHAs. -/
theorem mem_distinctKeys (l : List String) (s : String) :
    s ∈ distinctKeys l ↔ s ∈ l := by
  unfold distinctKeys
  rw [mem_foldl_insertKey]
  simp

/-- The key list of the Go `hashes` map is duplicate-free. -/
theorem distinctKeys_nodup (l : List String) : (distinctKeys l).Nodup :=
  nodup_foldl_insertKey l [] List.nodup_nil

/-- The key list of the Go `hashes` map has one element per distinct fetched
SHA. -/
theorem distinctKeys_length_dedup (l : List String) :
    (distinctKeys l).length = l.dedup.length := by
  have hperm : (distinctKeys l).Perm l.dedup :=
    (List.perm_ext_iff_of_nodup (distinctKeys_nodup l) (List.nodup_dedup l)).mpr
      (fun a => by rw [mem_distinctKeys, List.mem_dedup])
  exact hperm.length_eq

/-- Reading back the key just assigned into the cache. -/
theorem lookupEntry_insert_self (k : Int) (v : List String) (cache : Cache) :
    lookupEntry (insertEntry k v cache) k = some v := by
  simp [insertEntry, lookupEntry]

/-- Erasing key `k` leaves every other key's binding unchanged. -/
theorem lookupEntry_erase (k j : Int) (h : j ≠ k) :
    ∀ cache : Cache, lookupEntry (eraseEntry cache k) j = lookupEntry cache j := by
  intro cache
  induction cache with
  | nil => rfl
  | cons p rest ih =>
    obtain ⟨k', v'⟩ := p
    by_cases hk : k' = k
    · subst hk
      have hkj : ¬ (k' = j) := fun hj => h (hj ▸ rfl)
      simp [eraseEntry, lookupEntry, hkj, List.filter_cons] at ih ⊢
      exact ih
    · simp [eraseEntry, lookupEntry, hk, List.filter_cons] at ih ⊢
      by_cases hkj : k' = j
      · simp [hkj]
      · simp [hkj]
        exact ih

/-- Assigning key `k` leaves every other key's binding unchanged. -/
theorem lookupEntry_insert_other (k : Int) (v : List String) (cache : Cache)
    (j : Int) (h : j ≠ k) :
    lookupEntry (insertEntry k v cache) j = lookupEntry cache j := by
  simp only [insertEntry, lookupEntry]
  rw [if_neg (fun hj : k = j => h hj.symm)]
  exact lookupEntry_erase k j h cache

/-- The fetch loop aborts with the error return when a branch's commit query
fails, provided every earlier branch produced a commit with a present SHA. -/
theorem fetchTips_error_after_good_prefix
    (fetch : String → Except Unit (List (Option String)))
    (b : String) (hb : fetch b = .error ()) :
    ∀ pre : List String,
      (∀ b' ∈ pre, ∃ sha rest, fetch b' = .ok (some sha :: rest)) →
      ∀ post : List String,
        fetchTips fetch (pre ++ b :: post) = .fetchError := by
  intro pre
  induction pre with
  | nil =>
    intro _ post
    simp [fetchTips, hb]
  | cons a pre ih =>
    intro hpre post
    obtain ⟨sha, rest, ha⟩ := hpre a (List.mem_cons_self a pre)
    have hrec := ih (fun b' hb' => hpre b' (List.mem_cons_of_mem a hb')) post
    simp [fetchTips, ha, hrec]

/-- C4 (amended): when some branch's commit query fails and every branch
before it returned a non-empty commit list with a present SHA, `updateCache`
returns the error outcome: no cache value is produced, so no entry for today
is written and the caller's mapping is unchanged. -/
theorem updateCache_abort_on_fetch_error
    (iter : List String → List String) (repoURL owner repoName : String)
    (listCommits : String → String → String → Except Unit (List (Option String)))
    (pre post : List String) (b : String) (today : Int) (cache : Cache)
    (hsplit : splitRepo repoURL = some (owner, repoName))
    (hpre : ∀ b' ∈ pre, ∃ sha rest,
      listCommits owner repoName b' = .ok (some sha :: rest))
    (hb : listCommits owner repoName b = .error ()) :
    updateCache iter repoURL listCommits (pre ++ b :: post) today cache =
      .fetchError := by
  simp [updateCache, hsplit,
    fetchTips_error_after_good_prefix (listCommits owner repoName) b hb pre
      hpre post]

/-- C4 witness: with a healthy first branch and a failing second branch, the
update aborts with the error outcome. -/
theorem updateCache_abort_on_fetch_error_witness :
    updateCache (fun l => l) "owner/repo" listCommitsMixed
      (["other"] ++ "branchErr" :: ["branchEmpty"]) 0 [] = .fetchError :=
  updateCache_abort_on_fetch_error (fun l => l) "owner/repo" "owner" "repo"
    listCommitsMixed ["other"] ["branchEmpty"] "branchErr" 0 []
    (by decide)
    (by
      intro b' hb'
      have hb'' : b' = "other" := by simpa using hb'
      subst hb''
      exact ⟨"defaultSHA", [], by decide⟩)
    (by decide)

/-- C4 counterexample: branch `branchEmpty` precedes the failing branch
`branchErr` and answers with an empty commit list, so the run panics before
reaching the failing branch — `updateCache` does not return an error value
even though a branch's commit query fails. -/
theorem updateCache_fetch_error_claim_cex :
    listCommitsMixed "owner" "repo" "branchErr" = .error () ∧
    "branchErr" ∈ ["branchEmpty", "branchErr"] ∧
    updateCache (fun l => l) "owner/repo" listCommitsMixed
      ["branchEmpty", "branchErr"] 0 [] = .panicked ∧
    updateCache (fun l => l) "owner/repo" listCommitsMixed
      ["branchEmpty", "branchErr"] 0 [] ≠ .fetchError := by
  decide

/-- C10: a remote response in which a branch's commit query succeeds but
returns an empty commit list — or a first commit whose SHA pointer is nil —
makes `updateCache` panic (`commits[0]` / `*commits[0].SHA`) instead of
returning an error value. -/
theorem updateCache_panics_without_commits :
    (updateCache (fun l => l) "owner/repo" listCommitsEmpty ["main"] 0 [] =
        .panicked ∧
      updateCache (fun l => l) "owner/repo" listCommitsEmpty ["main"] 0 [] ≠
        .fetchError) ∧
    (updateCache (fun l => l) "owner/repo" listCommitsNilSHA ["main"] 0 [] =
        .panicked ∧
      updateCache (fun l => l) "owner/repo" listCommitsNilSHA ["main"] 0 [] ≠
        .fetchError) := by
  decide

/-- C3 counterexample (code bug): two legal enumeration orders of the Go
`hashes` map — the runtime randomizes `for key := range m` — give today-entry
lists in different orders from identical remote fetch results, so the
ordering `updateCache` writes is not deterministic. -/
theorem updateCache_iteration_order_observable :
    ValidIter (fun l => l) ∧ ValidIter List.reverse ∧
    updateCache (fun l => l) "owner/repo" mockListCommits
      ["branch1", "branch2"] 0 [] ≠
      updateCache List.reverse "owner/repo" mockListCommits
        ["branch1", "branch2"] 0 [] :=
  ⟨fun l _ => List.Perm.refl l, fun l _ => List.reverse_perm l, by decide⟩

/-- C5: when every branch fetch succeeds (with tip SHAs `shas`, possibly
repeated), `updateCache` binds under today's date a duplicate-free list whose
members are exactly the fetched SHAs and whose length is the number of
distinct SHAs; today's key is present afterwards and every other date's
binding is unchanged. -/
theorem updateCache_dedup_and_frame
    (iter : List String → List String) (repoURL owner repoName : String)
    (listCommits : String → String → String → Except Unit (List (Option String)))
    (branches : List String) (today : Int) (cache : Cache) (shas : List String)
    (hiter : ValidIter iter)
    (hsplit : splitRepo repoURL = some (owner, repoName))
    (hfetch : fetchTips (listCommits owner repoName) branches = .ok shas) :
    ∃ u : List String,
      updateCache iter repoURL listCommits branches today cache =
        .ok (insertEntry today u cache) ∧
      u.Nodup ∧ (∀ s, s ∈ u ↔ s ∈ shas) ∧
      u.length = shas.dedup.length ∧
      lookupEntry (insertEntry today u cache) today = some u ∧
      (∀ k, k ≠ today →
        lookupEntry (insertEntry today u cache) k = lookupEntry cache k) := by
  have hperm : (iter (distinctKeys shas)).Perm (distinctKeys shas) :=
    hiter (distinctKeys shas) (distinctKeys_nodup shas)
  refine ⟨iter (distinctKeys shas), ?_, ?_, ?_, ?_, ?_, ?_⟩
  · simp [updateCache, hsplit, hfetch]
  · exact hperm.nodup_iff.mpr (distinctKeys_nodup shas)
  · intro s
    rw [hperm.mem_iff, mem_distinctKeys]
  · rw [hperm.length_eq, distinctKeys_length_dedup]
  · exact lookupEntry_insert_self today _ cache
  · intro k hk
    exact lookupEntry_insert_other today _ cache k hk

/-- C5 witness: branches `branch1` and `branch3` both resolve to `mockSHA1`;
the today-entry has one element and yesterday's entry survives. -/
theorem updateCache_dedup_and_frame_witness :
    ∃ u : List String,
      updateCache (fun l => l) "owner/repo" mockListCommits
        ["branch1", "branch3"] 0 [(-1, ["oldSHA"])] =
        .ok (insertEntry 0 u [(-1, ["oldSHA"])]) ∧
      u.Nodup ∧ (∀ s, s ∈ u ↔ s ∈ ["mockSHA1", "mockSHA1"]) ∧
      u.length = (["mockSHA1", "mockSHA1"] : List String).dedup.length ∧
      lookupEntry (insertEntry 0 u [(-1, ["oldSHA"])]) 0 = some u ∧
      (∀ k, k ≠ 0 →
        lookupEntry (insertEntry 0 u [(-1, ["oldSHA"])]) k =
          lookupEntry [(-1, ["oldSHA"])] k) :=
  updateCache_dedup_and_frame (fun l => l) "owner/repo" "owner" "repo"
    mockListCommits ["branch1", "branch3"] 0 [(-1, ["oldSHA"])]
    ["mockSHA1", "mockSHA1"]
    (fun l _ => List.Perm.refl l) (by decide) (by decide)

/-- C8: whenever `updateAdvisory` succeeds, it overwrites `Modified` with the
current run's timestamp, keeps a non-empty `Published` exactly as it was, and
stamps `Published` with the run's timestamp only when it was empty. -/
theorem updateAdvisory_timestamps (today : Int) (nowTs : String)
    (advisory : Advisory) (policy : Policy) (cache : Cache) (a' : Advisory)
    (h : updateAdvisory today nowTs advisory policy cache = .ok a') :
    a'.modified = nowTs ∧
    (advisory.published ≠ "" → a'.published = advisory.published) ∧
    (advisory.published = "" → a'.published = nowTs) := by
  unfold updateAdvisory at h
  cases hg : getCacheEntry today cache policy.freshnessDays with
  | error e =>
    rw [hg] at h
    exact absurd h (by simp)
  | ok hashes =>
    rw [hg] at h
    simp only [createAffectedItem] at h
    injection h with h'
    subst h'
    refine ⟨rfl, ?_, ?_⟩
    · intro hp
      simp [if_neg hp]
    · intro hp
      simp [if_pos hp]

/-- C8 witness: an advisory with `Published = "P"` keeps it after a run
stamped `"NOW"`, while `Modified` becomes `"NOW"`. -/
theorem updateAdvisory_timestamps_witness :
    advisoryResultW.modified = "NOW" ∧
    (advisoryP.published ≠ "" → advisoryResultW.published = advisoryP.published) ∧
    (advisoryP.published = "" → advisoryResultW.published = "NOW") :=
  updateAdvisory_timestamps 0 "NOW" advisoryP policyW [(0, ["s"])]
    advisoryResultW (by decide)

/-- C9: for every policy and commit-identifier list, `createAffectedItem`
succeeds with exactly one GIT range whose events are the sentinel
`{introduced: "0"}` followed by one `{fixed: hash}` per identifier in order;
an empty list yields the sentinel alone, not an error. -/
theorem createAffectedItem_sentinel_events (policy : Policy)
    (hashes : List String) :
    createAffectedItem policy hashes =
      .ok { ranges := [{ type := "GIT",
                         repo := policy.repository,
                         events := { fixed := "", introduced := "0" } ::
                           hashes.map
                             (fun hash => { fixed := hash, introduced := "" }) }] } ∧
    createAffectedItem policy [] =
      .ok { ranges := [{ type := "GIT",
                         repo := policy.repository,
                         events := [{ fixed := "", introduced := "0" }] }] } := by
  constructor
  · simp [createAffectedItem]
  · simp [createAffectedItem]
